import Mathlib

/-!
Shallow embedding of the SCF solver core in src/src/sadatom/solver.cpp
(HelFEM, spherically averaged atom solver).

Modelling conventions:
* dense matrices (arma::mat) are total functions Mat over rationals, with
  explicit dimension arguments wherever a loop bound or a product needs one;
  entries outside the intended dimensions are junk and never inspected;
* cubes (arma::cube) are slice-indexed families of matrices;
* doubles are modelled as rationals;
* external collaborators (integral evaluation, the DFT grid, the DIIS
  accelerator, the generalized eigensolver eig_gsym) are oracle parameters,
  per the spec they are outside the core;
* arma::ivec occupation vectors are lists of integers;
* thrown std::logic_error is modelled with Except.
-/

/-- Dense matrix: entry access only, dimensions tracked separately. -/
abbrev Mat : Type := ℕ → ℕ → ℚ

/-- Cube: one matrix slice per angular channel l. -/
abbrev Cube : Type := ℕ → Mat

/-- The zero matrix. -/
def matZero : Mat := fun _ _ => 0

/-- Pointwise matrix sum. -/
def matAdd (A B : Mat) : Mat := fun i j => A i j + B i j

/-- Scalar times matrix. -/
def matSmul (c : ℚ) (A : Mat) : Mat := fun i j => c * A i j

/-- Matrix product with inner dimension k. -/
def matMul (k : ℕ) (A B : Mat) : Mat := fun i j => ∑ t ∈ Finset.range k, A i t * B t j

/-- Matrix transpose. -/
def matTrans (A : Mat) : Mat := fun i j => A j i

/-- arma::trace(A*B) for n-by-n matrices A and B. -/
def traceProd (n : ℕ) (A B : Mat) : ℚ :=
  ∑ i ∈ Finset.range n, ∑ k ∈ Finset.range n, A i k * B k i

/-- Zero cube. -/
def cubeZero : Cube := fun _ => matZero

/-- Pointwise cube sum. -/
def cubeAdd (A B : Cube) : Cube := fun l => matAdd (A l) (B l)

/-- OrbitalChannel::ShellCapacity: 4l+2 for restricted, 2l+1 for
unrestricted occupations. -/
def ShellCapacity (restr : Bool) (l : ℕ) : ℤ :=
  if restr then 4 * l + 2 else 2 * l + 1

/-- One spin channel: orbital coefficients C (a cube with tracked element
count, rows and columns), orbital energies E (row io, column l), the
occupation vector occs, the restricted flag and the angular cutoff lmax.
Mirrors class OrbitalChannel of solver.h / solver.cpp. -/
structure OrbitalChannel where
  C : Cube
  CnElem : ℕ
  CnRows : ℕ
  CnCols : ℕ
  E : ℕ → ℕ → ℚ
  EnRows : ℕ
  EnCols : ℕ
  occs : List ℤ
  restr : Bool
  lmax : ℕ

namespace OrbitalChannel

/-- Shell capacity of channel l for this spin channel. -/
def ShellCap (ch : OrbitalChannel) (l : ℕ) : ℤ := ShellCapacity ch.restr l

/-- OrbitalChannel::OrbitalsInitialized: C.n_elem is nonzero. -/
def OrbitalsInit (ch : OrbitalChannel) : Bool := decide (ch.CnElem ≠ 0)

/-- OrbitalChannel::Nel: the sum of the occupation vector. -/
def Nel (ch : OrbitalChannel) : ℤ := ch.occs.sum

/-- OrbitalChannel::OccupationsInitialized: Nel() != 0. -/
def OccupationsInit (ch : OrbitalChannel) : Bool := decide (ch.Nel ≠ 0)

/-- OrbitalChannel::Restricted. -/
def Restricted (ch : OrbitalChannel) : Bool := ch.restr

end OrbitalChannel

/-- Restricted configuration rconf_t: one orbital channel, per-l density and
Fock cubes, energy components and the converged flag. -/
structure rconf_t where
  orbs : OrbitalChannel
  Pl : Cube
  Fl : Cube
  Econf : ℚ
  Ekin : ℚ
  Epot : ℚ
  Ecoul : ℚ
  Exc : ℚ
  converged : Bool

/-- Unrestricted configuration uconf_t: two orbital channels with their own
density and Fock cubes, shared energy components and the converged flag. -/
structure uconf_t where
  orbsa : OrbitalChannel
  orbsb : OrbitalChannel
  Pal : Cube
  Pbl : Cube
  Fal : Cube
  Fbl : Cube
  Econf : ℚ
  Ekin : ℚ
  Epot : ℚ
  Ecoul : ℚ
  Exc : ℚ
  converged : Bool

/-- operator< on rconf_t: converged sorts before not converged, then by
Econf. -/
def rconfLt (lh rh : rconf_t) : Bool :=
  if lh.converged && !rh.converged then true
  else if rh.converged && !lh.converged then false
  else decide (lh.Econf < rh.Econf)

/-- operator< on uconf_t: converged sorts before not converged, then by
Econf. -/
def uconfLt (lh rh : uconf_t) : Bool :=
  if lh.converged && !rh.converged then true
  else if rh.converged && !lh.converged then false
  else decide (lh.Econf < rh.Econf)

/-- C7: for both rconf_t and uconf_t, the ordering relation puts a converged
configuration strictly before any non-converged one, never the reverse, and
between configurations with the same converged flag it compares by strictly
lower Econf. -/
theorem C7_configuration_ordering :
    (∀ a b : rconf_t,
      (a.converged = true → b.converged = false → rconfLt a b = true) ∧
      (a.converged = false → b.converged = true → rconfLt a b = false) ∧
      (a.converged = b.converged → (rconfLt a b = true ↔ a.Econf < b.Econf))) ∧
    (∀ a b : uconf_t,
      (a.converged = true → b.converged = false → uconfLt a b = true) ∧
      (a.converged = false → b.converged = true → uconfLt a b = false) ∧
      (a.converged = b.converged → (uconfLt a b = true ↔ a.Econf < b.Econf))) := by
  constructor
  · intro a b
    refine ⟨fun ha hb => ?_, fun ha hb => ?_, fun hab => ?_⟩
    · simp [rconfLt, ha, hb]
    · simp [rconfLt, ha, hb]
    · cases hc : a.converged <;> simp [rconfLt, hc, ← hab]
  · intro a b
    refine ⟨fun ha hb => ?_, fun ha hb => ?_, fun hab => ?_⟩
    · simp [uconfLt, ha, hb]
    · simp [uconfLt, ha, hb]
    · cases hc : a.converged <;> simp [uconfLt, hc, ← hab]

/-- A plain concrete orbital channel used by test fixtures. -/
def chFix : OrbitalChannel where
  C := cubeZero
  CnElem := 1
  CnRows := 1
  CnCols := 1
  E := fun _ _ => 0
  EnRows := 1
  EnCols := 1
  occs := [0]
  restr := true
  lmax := 0

/-- Concrete converged restricted configuration with energy 1. -/
def rcFixA : rconf_t :=
  ⟨chFix, cubeZero, cubeZero, 1, 0, 0, 0, 1, true⟩

/-- Concrete non-converged restricted configuration with energy 2. -/
def rcFixB : rconf_t :=
  ⟨chFix, cubeZero, cubeZero, 2, 0, 0, 0, 2, false⟩

/-- Concrete converged unrestricted configuration with energy 1. -/
def ucFixA : uconf_t :=
  ⟨chFix, chFix, cubeZero, cubeZero, cubeZero, cubeZero, 1, 0, 0, 0, 1, true⟩

/-- Concrete converged unrestricted configuration with energy 2. -/
def ucFixB : uconf_t :=
  ⟨chFix, chFix, cubeZero, cubeZero, cubeZero, cubeZero, 2, 0, 0, 0, 2, true⟩

/-- Witness for C7 at concrete configurations. -/
theorem C7_configuration_ordering_witness :
    rconfLt rcFixA rcFixB = true ∧ rconfLt rcFixB rcFixA = false ∧
    uconfLt ucFixA ucFixB = true := by
  refine ⟨(C7_configuration_ordering.1 rcFixA rcFixB).1 rfl rfl,
    (C7_configuration_ordering.1 rcFixB rcFixA).2.1 rfl rfl,
    ((C7_configuration_ordering.2 ucFixA ucFixB).2.2 rfl).mpr ?_⟩
  show (1 : ℚ) < 2
  norm_num

/-- C10: OccupationsInitialized is true exactly when the summed electron
count Nel is nonzero; in particular a channel whose occupations are all set
to zero reports its occupations as uninitialized. -/
theorem C10_occupations_initialized_iff_nel_nonzero :
    (∀ ch : OrbitalChannel, ch.OccupationsInit = true ↔ ch.Nel ≠ 0) ∧
    (∀ ch : OrbitalChannel, (∀ x ∈ ch.occs, x = 0) → ch.OccupationsInit = false) := by
  constructor
  · intro ch
    simp [OrbitalChannel.OccupationsInit]
  · intro ch h
    have hz : ch.Nel = 0 := List.sum_eq_zero h
    simp [OrbitalChannel.OccupationsInit, hz]

/-- A channel with occupations explicitly set to zeros. -/
def chZeroOccs : OrbitalChannel := { chFix with occs := [0, 0, 0] }

/-- Witness for C10: the all-zero occupation channel reports uninitialized
occupations. -/
theorem C10_occupations_initialized_iff_nel_nonzero_witness :
    (∀ x ∈ chZeroOccs.occs, x = 0) ∧ chZeroOccs.OccupationsInit = false :=
  ⟨by decide, C10_occupations_initialized_iff_nel_nonzero.2 chZeroOccs (by decide)⟩

/-- Helper lemma: reading back the entry just written by List.set. -/
theorem getD_set_self_int : ∀ (l : List ℤ) (n : ℕ), n < l.length → ∀ a : ℤ,
    (l.set n a).getD n 0 = a := by
  intro l
  induction l with
  | nil => intro n h; simp at h
  | cons x xs ih =>
    intro n h a
    cases n with
    | zero => simp
    | succ m =>
      simp only [List.set, List.getD_cons_succ]
      exact ih m (by simpa using h) a

/-- Helper lemma: the sum of a list after List.set. -/
theorem sum_set_int : ∀ (l : List ℤ) (n : ℕ), n < l.length → ∀ a : ℤ,
    (l.set n a).sum = l.sum - l.getD n 0 + a := by
  intro l
  induction l with
  | nil => intro n h; simp at h
  | cons x xs ih =>
    intro n h a
    cases n with
    | zero => simp [List.sum_cons]; ring
    | succ m =>
      simp only [List.set, List.getD_cons_succ, List.sum_cons]
      rw [ih m (by simpa using h) a]
      ring

/-- Helper lemma: writing back the value already present is the identity. -/
theorem set_getD_self_int : ∀ (l : List ℤ) (n : ℕ), n < l.length →
    l.set n (l.getD n 0) = l := by
  intro l
  induction l with
  | nil => intro n h; simp at h
  | cons x xs ih =>
    intro n h
    cases n with
    | zero => simp
    | succ m =>
      simp only [List.set, List.getD_cons_succ]
      rw [ih m (by simpa using h)]

namespace OrbitalChannel

/-- One move inside MoveElectrons: on a copy of the occupation vector,
newch.occs(shell_from) -= nmove, then newch.occs(shell_to) += nmove. -/
def moveOccs (occs : List ℤ) (sfrom sto : ℕ) (nmove : ℤ) : List ℤ :=
  let o1 := occs.set sfrom (occs.getD sfrom 0 - nmove)
  o1.set sto (o1.getD sto 0 + nmove)

/-- The list ret accumulated by the nested loops of
OrbitalChannel::MoveElectrons: for every ordered pair of channels and every
move size 1..min of the two shell capacities, the moved copy when enough
electrons are available (the identity pair shell_from = shell_to is
included). -/
def moveList (ch : OrbitalChannel) : List OrbitalChannel :=
  (List.range (ch.lmax + 1)).flatMap fun sfrom =>
    (List.range (ch.lmax + 1)).flatMap fun sto =>
      (List.range (min (ch.ShellCap sfrom) (ch.ShellCap sto)).toNat).filterMap fun (k : ℕ) =>
        if ch.occs.getD sfrom 0 ≥ (k : ℤ) + 1 then
          some { ch with occs := moveOccs ch.occs sfrom sto ((k : ℤ) + 1) }
        else none

/-- OrbitalChannel::MoveElectrons: the accumulated move list, or, when it is
empty, one copy of the channel with zeroed occupations. -/
def MoveElectrons (ch : OrbitalChannel) : List OrbitalChannel :=
  if ch.moveList.isEmpty then [{ ch with occs := List.replicate (ch.lmax + 1) 0 }]
  else ch.moveList

end OrbitalChannel

/-- Shell capacities are at least one. -/
theorem shellCapacity_pos (restr : Bool) (l : ℕ) : 1 ≤ ShellCapacity restr l := by
  unfold ShellCapacity
  cases restr
  · simp only [Bool.false_eq_true, if_false]
    omega
  · simp only [if_true]
    omega

/-- The sum of the occupation vector is preserved by one move. -/
theorem moveOccs_sum (occs : List ℤ) (sfrom sto : ℕ) (nmove : ℤ)
    (hf : sfrom < occs.length) (ht : sto < occs.length) :
    (OrbitalChannel.moveOccs occs sfrom sto nmove).sum = occs.sum := by
  simp only [OrbitalChannel.moveOccs]
  have h1 : (occs.set sfrom (occs.getD sfrom 0 - nmove)).length = occs.length := by
    simp
  rw [sum_set_int _ sto (by omega) _, sum_set_int _ sfrom hf _]
  ring

/-- The identity move at a channel leaves the occupation vector unchanged. -/
theorem moveOccs_self (occs : List ℤ) (f : ℕ) (hf : f < occs.length) :
    OrbitalChannel.moveOccs occs f f 1 = occs := by
  simp only [OrbitalChannel.moveOccs]
  rw [getD_set_self_int _ f hf, List.set_set]
  have : occs.getD f 0 - 1 + 1 = occs.getD f 0 := by ring
  rw [this, set_getD_self_int _ f hf]

/-- Membership description of the accumulated move list. -/
theorem mem_moveList (ch : OrbitalChannel) (x : OrbitalChannel) :
    x ∈ ch.moveList ↔
    ∃ sfrom, sfrom < ch.lmax + 1 ∧ ∃ sto, sto < ch.lmax + 1 ∧
      ∃ k, k < (min (ch.ShellCap sfrom) (ch.ShellCap sto)).toNat ∧
        ch.occs.getD sfrom 0 ≥ (k : ℤ) + 1 ∧
        x = { ch with occs := OrbitalChannel.moveOccs ch.occs sfrom sto ((k : ℤ) + 1) } := by
  unfold OrbitalChannel.moveList
  constructor
  · intro hx
    obtain ⟨f, hf, hx⟩ := List.mem_flatMap.mp hx
    obtain ⟨t, ht, hx⟩ := List.mem_flatMap.mp hx
    obtain ⟨k, hk, hsome⟩ := List.mem_filterMap.mp hx
    refine ⟨f, List.mem_range.mp hf, t, List.mem_range.mp ht, k, List.mem_range.mp hk, ?_⟩
    by_cases hcond : ch.occs.getD f 0 ≥ (k : ℤ) + 1
    · rw [if_pos hcond] at hsome
      exact ⟨hcond, (Option.some_inj.mp hsome).symm⟩
    · rw [if_neg hcond] at hsome
      exact absurd hsome (Option.noConfusion)
  · rintro ⟨f, hf, t, ht, k, hk, hcond, hx⟩
    refine List.mem_flatMap.mpr ⟨f, List.mem_range.mpr hf, ?_⟩
    refine List.mem_flatMap.mpr ⟨t, List.mem_range.mpr ht, ?_⟩
    refine List.mem_filterMap.mpr ⟨k, List.mem_range.mpr hk, ?_⟩
    rw [if_pos hcond, hx]

/-- C4: MoveElectrons always contains a channel with the same occupation
vector as the input (the zero move), and every emitted channel has the same
total electron count as the input. -/
theorem C4_move_electrons_identity_and_conservation (ch : OrbitalChannel)
    (hlen : ch.occs.length = ch.lmax + 1)
    (hpos : ∀ x ∈ ch.occs, 0 ≤ x) :
    (∃ ch2 ∈ ch.MoveElectrons, ch2.occs = ch.occs) ∧
    (∀ ch2 ∈ ch.MoveElectrons, ch2.occs.sum = ch.occs.sum) := by
  by_cases hzero : ∀ x ∈ ch.occs, x = 0
  · -- all occupations are zero: no move is generated, the sentinel is emitted
    have hnil : ch.moveList = [] := by
      rw [List.eq_nil_iff_forall_not_mem]
      intro x hx
      obtain ⟨f, hf, t, ht, k, hk, hcond, _⟩ := (mem_moveList ch x).mp hx
      have hflen : f < ch.occs.length := by omega
      have hfz : ch.occs.getD f 0 = 0 := by
        have hge : ch.occs.getD f 0 = ch.occs[f] := by
          rw [List.getD_eq_getElem?_getD, List.getElem?_eq_getElem hflen]
          rfl
        rw [hge]
        exact hzero _ (List.getElem_mem hflen)
      omega
    have hmove : ch.MoveElectrons = [{ ch with occs := List.replicate (ch.lmax + 1) 0 }] := by
      unfold OrbitalChannel.MoveElectrons
      rw [hnil]
      rfl
    have hocc : ch.occs = List.replicate (ch.lmax + 1) 0 :=
      List.eq_replicate_iff.mpr ⟨hlen, hzero⟩
    constructor
    · exact ⟨_, by rw [hmove]; exact List.mem_singleton.mpr rfl, by rw [← hocc]⟩
    · intro ch2 h2
      rw [hmove, List.mem_singleton] at h2
      rw [h2]
      show (List.replicate (ch.lmax + 1) (0 : ℤ)).sum = ch.occs.sum
      rw [List.sum_eq_zero hzero, List.sum_replicate]
      simp
  · -- some channel holds at least one electron: the identity move is emitted
    push_neg at hzero
    obtain ⟨v, hvmem, hvne⟩ := hzero
    obtain ⟨f, hflen, hfval⟩ := List.mem_iff_getElem.mp hvmem
    have hfpos : 1 ≤ ch.occs.getD f 0 := by
      have h0 : 0 ≤ v := hpos v hvmem
      have hge : ch.occs.getD f 0 = v := by
        rw [List.getD_eq_getElem?_getD, List.getElem?_eq_getElem hflen, hfval]
        rfl
      omega
    have hcap : 1 ≤ (min (ch.ShellCap f) (ch.ShellCap f)).toNat := by
      have h1 := shellCapacity_pos ch.restr f
      have h2 : 1 ≤ ch.ShellCap f := h1
      omega
    have hmem : ({ ch with occs := OrbitalChannel.moveOccs ch.occs f f ((0 : ℕ) + 1 : ℤ) } :
        OrbitalChannel) ∈ ch.moveList := by
      rw [mem_moveList]
      refine ⟨f, by omega, f, by omega, 0, by omega, ?_, rfl⟩
      simpa using hfpos
    have hne : ch.moveList.isEmpty = false := by
      rcases h : ch.moveList with _ | ⟨y, ys⟩
      · rw [h] at hmem
        exact absurd hmem (List.not_mem_nil _)
      · rfl
    have hmove : ch.MoveElectrons = ch.moveList := by
      unfold OrbitalChannel.MoveElectrons
      rw [hne]
      rfl
    constructor
    · refine ⟨_, by rw [hmove]; exact hmem, ?_⟩
      show OrbitalChannel.moveOccs ch.occs f f ((0 : ℕ) + 1 : ℤ) = ch.occs
      have he : (((0 : ℕ) : ℤ) + 1) = 1 := by norm_num
      rw [he]
      exact moveOccs_self ch.occs f (by omega)
    · intro ch2 h2
      rw [hmove] at h2
      obtain ⟨sf, hsf, st, hst, k, hk, hcond, hx⟩ := (mem_moveList ch ch2).mp h2
      rw [hx]
      show (OrbitalChannel.moveOccs ch.occs sf st ((k : ℤ) + 1)).sum = ch.occs.sum
      exact moveOccs_sum ch.occs sf st _ (by omega) (by omega)

/-- Concrete channel for the C4 witness: two angular channels with three
electrons in them. -/
def chMoveFix : OrbitalChannel := { chFix with occs := [2, 1], lmax := 1 }

/-- Witness for C4 at a concrete channel. -/
theorem C4_move_electrons_identity_and_conservation_witness :
    (chMoveFix.occs.length = chMoveFix.lmax + 1 ∧ ∀ x ∈ chMoveFix.occs, 0 ≤ x) ∧
    ((∃ ch2 ∈ chMoveFix.MoveElectrons, ch2.occs = chMoveFix.occs) ∧
      (∀ ch2 ∈ chMoveFix.MoveElectrons, ch2.occs.sum = chMoveFix.occs.sum)) :=
  ⟨⟨by decide, by decide⟩,
    C4_move_electrons_identity_and_conservation chMoveFix (by decide) (by decide)⟩

/-- Helper lemma: List.set at one index does not change getD at another. -/
theorem getD_set_ne_int (l : List ℤ) (n m : ℕ) (h : n ≠ m) (a : ℤ) :
    (l.set n a).getD m 0 = l.getD m 0 := by
  rw [List.getD_eq_getElem?_getD, List.getD_eq_getElem?_getD, List.getElem?_set_ne h]

/-- Helper lemma: getD on a replicate of zeros is zero. -/
theorem getD_replicate_zero_int (n m : ℕ) : (List.replicate n (0 : ℤ)).getD m 0 = 0 := by
  rw [List.getD_eq_getElem?_getD, List.getElem?_replicate]
  by_cases h : m < n
  · rw [if_pos h]
    rfl
  · rw [if_neg h]
    rfl

namespace OrbitalChannel

/-- The flattened energy and angular momentum tables El, lval built by
AufbauOccupations: channel major, one entry per radial solution. -/
def aufbauEntries (ch : OrbitalChannel) : List (ℚ × ℕ) :=
  (List.range ch.EnCols).flatMap fun l =>
    (List.range ch.EnRows).map fun io => (ch.E io l, l)

/-- The flattened table sorted by increasing energy
(arma::sort_index ascend). -/
def aufbauSorted (ch : OrbitalChannel) : List (ℚ × ℕ) :=
  ch.aufbauEntries.mergeSort fun a b => decide (a.1 ≤ b.1)

/-- The filling loop of AufbauOccupations: every entry receives
min(ShellCapacity(l), numel) electrons into occs(l), and the loop breaks as
soon as numel reaches zero. -/
def aufbauFill (restr : Bool) : List (ℚ × ℕ) → ℤ → List ℤ → List ℤ
  | [], _, occs => occs
  | e :: rest, numel, occs =>
    let nocc := min (ShellCapacity restr e.2) numel
    let occs2 := occs.set e.2 (occs.getD e.2 0 + nocc)
    let numel2 := numel - nocc
    if numel2 = 0 then occs2 else aufbauFill restr rest numel2 occs2

/-- OrbitalChannel::AufbauOccupations: zero the occupation vector, then run
the filling loop over the energy-sorted flattened shell table. -/
def AufbauOccupations (ch : OrbitalChannel) (numel : ℤ) : OrbitalChannel :=
  { ch with occs := aufbauFill ch.restr ch.aufbauSorted numel (List.replicate (ch.lmax + 1) 0) }

end OrbitalChannel

/-- Total capacity of the shell table: Nrad radial solutions per channel,
each holding ShellCapacity(l) electrons. -/
def totalCapacity (restr : Bool) (Nrad L : ℕ) : ℤ :=
  ((List.range L).map fun l => (Nrad : ℤ) * ShellCapacity restr l).sum

/-- The filling loop places exactly min(numel, sum of capacities) electrons
in total. -/
theorem aufbauFill_sum (restr : Bool) :
    ∀ (es : List (ℚ × ℕ)) (numel : ℤ) (occs : List ℤ), 0 ≤ numel →
    (∀ p ∈ es, p.2 < occs.length) →
    (OrbitalChannel.aufbauFill restr es numel occs).sum
      = occs.sum + min numel (es.map fun p => ShellCapacity restr p.2).sum := by
  intro es
  induction es with
  | nil =>
    intro numel occs hnum _
    simp only [OrbitalChannel.aufbauFill, List.map_nil, List.sum_nil]
    omega
  | cons e rest ih =>
    intro numel occs hnum hlen
    have hcap : 1 ≤ ShellCapacity restr e.2 := shellCapacity_pos restr e.2
    have hrest : 0 ≤ (rest.map fun p => ShellCapacity restr p.2).sum := by
      apply List.sum_nonneg
      intro x hx
      obtain ⟨p, _, hp⟩ := List.mem_map.mp hx
      have := shellCapacity_pos restr p.2
      omega
    have helen : e.2 < occs.length := hlen e (List.mem_cons_self e rest)
    have hsum2 : (occs.set e.2 (occs.getD e.2 0 + min (ShellCapacity restr e.2) numel)).sum
        = occs.sum + min (ShellCapacity restr e.2) numel := by
      rw [sum_set_int _ _ helen]
      ring
    simp only [OrbitalChannel.aufbauFill, List.map_cons, List.sum_cons]
    by_cases hbreak : numel - min (ShellCapacity restr e.2) numel = 0
    · rw [if_pos hbreak, hsum2]
      omega
    · rw [if_neg hbreak]
      rw [ih _ _ (by omega) (by intro p hp; rw [List.length_set]; exact hlen p (List.mem_cons_of_mem e hp))]
      rw [hsum2]
      omega

/-- The filling loop never puts more than count times the capacity into one
channel. -/
theorem aufbauFill_le (restr : Bool) (l : ℕ) :
    ∀ (es : List (ℚ × ℕ)) (numel : ℤ) (occs : List ℤ), 0 ≤ numel →
    (∀ p ∈ es, p.2 < occs.length) →
    (OrbitalChannel.aufbauFill restr es numel occs).getD l 0
      ≤ occs.getD l 0 + (es.countP fun p => p.2 == l : ℤ) * ShellCapacity restr l := by
  intro es
  induction es with
  | nil =>
    intro numel occs _ _
    simp only [OrbitalChannel.aufbauFill, List.countP_nil]
    omega
  | cons e rest ih =>
    intro numel occs hnum hlen
    have hcap : 1 ≤ ShellCapacity restr e.2 := shellCapacity_pos restr e.2
    have hcapl : 1 ≤ ShellCapacity restr l := shellCapacity_pos restr l
    have helen : e.2 < occs.length := hlen e (List.mem_cons_self e rest)
    have hcount : (List.countP (fun p => p.2 == l) (e :: rest) : ℤ)
        = (if e.2 = l then 1 else 0) + (rest.countP fun p => p.2 == l : ℤ) := by
      rw [List.countP_cons]
      by_cases he : e.2 = l
      · simp [he]
        omega
      · simp [he]
    have hgd : (occs.set e.2 (occs.getD e.2 0 + min (ShellCapacity restr e.2) numel)).getD l 0
        = occs.getD l 0 + (if e.2 = l then min (ShellCapacity restr e.2) numel else 0) := by
      by_cases he : e.2 = l
      · rw [if_pos he, ← he, getD_set_self_int _ _ helen]
      · rw [if_neg he, getD_set_ne_int _ _ _ he]
        ring
    have hcrest : (0 : ℤ) ≤ (rest.countP fun p => p.2 == l : ℤ) := by positivity
    simp only [OrbitalChannel.aufbauFill]
    by_cases hbreak : numel - min (ShellCapacity restr e.2) numel = 0
    · rw [if_pos hbreak, hgd, hcount]
      by_cases he : e.2 = l
      · rw [if_pos he, if_pos he]
        have hmin : min (ShellCapacity restr e.2) numel ≤ ShellCapacity restr l := by
          rw [he] at hcap ⊢
          omega
        nlinarith
      · rw [if_neg he, if_neg he]
        nlinarith
    · rw [if_neg hbreak]
      have hrec := ih (numel - min (ShellCapacity restr e.2) numel)
        (occs.set e.2 (occs.getD e.2 0 + min (ShellCapacity restr e.2) numel))
        (by omega)
        (by intro p hp; rw [List.length_set]; exact hlen p (List.mem_cons_of_mem e hp))
      rw [hgd] at hrec
      rw [hcount]
      by_cases he : e.2 = l
      · rw [if_pos he] at hrec
        rw [if_pos he]
        have hmin : min (ShellCapacity restr e.2) numel ≤ ShellCapacity restr l := by
          rw [he] at hcap ⊢
          omega
        nlinarith
      · rw [if_neg he] at hrec
        rw [if_neg he]
        nlinarith

/-- Helper lemma: summing an indicator over an index range. -/
theorem sum_map_range_ite (a l : ℕ) :
    ∀ L : ℕ, ((List.range L).map fun x => if x = l then a else 0).sum
      = if l < L then a else 0 := by
  intro L
  induction L with
  | zero => simp
  | succ n ih =>
    rw [List.range_succ, List.map_append, List.sum_append, ih]
    by_cases h1 : l < n
    · rw [if_pos h1, if_pos (by omega)]
      have : ¬ (n = l) := by omega
      simp [this]
    · rw [if_neg h1]
      by_cases h2 : n = l
      · rw [if_pos (by omega)]
        simp [h2]
      · rw [if_neg (by omega)]
        simp [h2]

/-- Every entry of the flattened shell table carries a channel index below
the number of energy columns. -/
theorem aufbauEntries_label_lt (ch : OrbitalChannel) :
    ∀ p ∈ ch.aufbauEntries, p.2 < ch.EnCols := by
  intro p hp
  obtain ⟨l, hl, hp⟩ := List.mem_flatMap.mp hp
  obtain ⟨io, _, hio⟩ := List.mem_map.mp hp
  rw [← hio]
  exact List.mem_range.mp hl

/-- The capacities of the flattened shell table sum to the total capacity. -/
theorem aufbauEntries_capSum (ch : OrbitalChannel) :
    (ch.aufbauEntries.map fun p => ShellCapacity ch.restr p.2).sum
      = totalCapacity ch.restr ch.EnRows ch.EnCols := by
  unfold OrbitalChannel.aufbauEntries totalCapacity
  rw [List.map_flatMap, List.flatMap_def, List.sum_flatten, List.map_map]
  congr 1
  apply List.map_congr_left
  intro l _
  show (((List.range ch.EnRows).map fun io => ((ch.E io l, l) : ℚ × ℕ)).map
      fun p => ShellCapacity ch.restr p.2).sum = (ch.EnRows : ℤ) * ShellCapacity ch.restr l
  rw [List.map_map]
  have : ((fun p => ShellCapacity ch.restr p.2) ∘ fun io => ((ch.E io l, l) : ℚ × ℕ))
      = fun _ => ShellCapacity ch.restr l := rfl
  rw [this, List.map_const', List.sum_replicate, List.length_range, nsmul_eq_mul]

/-- Each channel index below the column count appears exactly Nrad times in
the flattened shell table. -/
theorem aufbauEntries_count (ch : OrbitalChannel) (l : ℕ) (hl : l < ch.EnCols) :
    (ch.aufbauEntries.countP fun p => p.2 == l) = ch.EnRows := by
  unfold OrbitalChannel.aufbauEntries
  rw [List.flatMap_def, List.countP_flatten, List.map_map]
  have hmap : ((List.countP fun p => p.2 == l) ∘ fun l2 =>
      (List.range ch.EnRows).map fun io => ((ch.E io l2, l2) : ℚ × ℕ))
      = fun l2 => if l2 = l then ch.EnRows else 0 := by
    funext l2
    show (((List.range ch.EnRows).map fun io => ((ch.E io l2, l2) : ℚ × ℕ)).countP
        fun p => p.2 == l) = if l2 = l then ch.EnRows else 0
    rw [List.countP_map]
    by_cases h : l2 = l
    · rw [if_pos h]
      have : ((fun p => p.2 == l) ∘ fun io => ((ch.E io l2, l2) : ℚ × ℕ))
          = fun _ => true := by
        funext io
        simp [h]
      rw [this, List.countP_true, List.length_range]
    · rw [if_neg h]
      have : ((fun p => p.2 == l) ∘ fun io => ((ch.E io l2, l2) : ℚ × ℕ))
          = fun _ => false := by
        funext io
        simp [h]
      rw [this, List.countP_false]
      rfl
  rw [hmap, sum_map_range_ite ch.EnRows l ch.EnCols, if_pos hl]

/-- C5: AufbauOccupations places min(numel, total capacity) electrons in
total, and no channel receives more than Nrad times its shell capacity. -/
theorem C5_aufbau_occupations (ch : OrbitalChannel) (numel : ℤ)
    (hnum : 0 ≤ numel) (hcols : ch.EnCols = ch.lmax + 1) :
    (ch.AufbauOccupations numel).occs.sum
      = min numel (totalCapacity ch.restr ch.EnRows (ch.lmax + 1)) ∧
    ∀ l, l < ch.lmax + 1 →
      (ch.AufbauOccupations numel).occs.getD l 0
        ≤ (ch.EnRows : ℤ) * ShellCapacity ch.restr l := by
  have hperm : ch.aufbauSorted.Perm ch.aufbauEntries :=
    List.mergeSort_perm ch.aufbauEntries fun a b => decide (a.1 ≤ b.1)
  have hlab : ∀ p ∈ ch.aufbauSorted, p.2 < ch.lmax + 1 := by
    intro p hp
    have := aufbauEntries_label_lt ch p (hperm.subset hp)
    omega
  have hlen : ∀ p ∈ ch.aufbauSorted, p.2 < (List.replicate (ch.lmax + 1) (0 : ℤ)).length := by
    intro p hp
    rw [List.length_replicate]
    exact hlab p hp
  have hcs : (ch.aufbauSorted.map fun p => ShellCapacity ch.restr p.2).sum
      = totalCapacity ch.restr ch.EnRows (ch.lmax + 1) := by
    rw [(hperm.map fun p => ShellCapacity ch.restr p.2).sum_eq, aufbauEntries_capSum, hcols]
  constructor
  · show (OrbitalChannel.aufbauFill ch.restr ch.aufbauSorted numel
        (List.replicate (ch.lmax + 1) 0)).sum = _
    rw [aufbauFill_sum ch.restr ch.aufbauSorted numel _ hnum hlen, hcs]
    simp
  · intro l hllt
    have hcnt : (ch.aufbauSorted.countP fun p => p.2 == l) = ch.EnRows := by
      rw [hperm.countP_eq, aufbauEntries_count ch l (by omega)]
    have hb := aufbauFill_le ch.restr l ch.aufbauSorted numel
      (List.replicate (ch.lmax + 1) 0) hnum hlen
    rw [hcnt, getD_replicate_zero_int] at hb
    show (OrbitalChannel.aufbauFill ch.restr ch.aufbauSorted numel
        (List.replicate (ch.lmax + 1) 0)).getD l 0 ≤ _
    omega

/-- Concrete channel for the C5 witness: two angular channels, one radial
solution each, with the p channel below the s channel in energy. -/
def chAufbauFix : OrbitalChannel :=
  { chFix with
    lmax := 1
    EnRows := 1
    EnCols := 2
    E := fun _ l => if l = 0 then 1 else 0 }

/-- Witness for C5 at a concrete channel with three electrons. -/
theorem C5_aufbau_occupations_witness :
    ((0 : ℤ) ≤ 3 ∧ chAufbauFix.EnCols = chAufbauFix.lmax + 1) ∧
    ((chAufbauFix.AufbauOccupations 3).occs.sum
        = min 3 (totalCapacity chAufbauFix.restr chAufbauFix.EnRows (chAufbauFix.lmax + 1)) ∧
      ∀ l, l < chAufbauFix.lmax + 1 →
        (chAufbauFix.AufbauOccupations 3).occs.getD l 0
          ≤ (chAufbauFix.EnRows : ℤ) * ShellCapacity chAufbauFix.restr l) :=
  ⟨⟨by decide, by decide⟩, C5_aufbau_occupations chAufbauFix 3 (by decide) (by decide)⟩

/-- One submatrix assignment Msuper.submat(l n, l n, (l+1)n-1, (l+1)n-1) =
s: write the n-by-n block at block position (l, l), keep all other
entries. -/
def writeBlock (n l : ℕ) (s : Mat) (A : Mat) : Mat := fun i j =>
  if l * n ≤ i ∧ i < (l + 1) * n ∧ l * n ≤ j ∧ j < (l + 1) * n then
    s (i - l * n) (j - l * n)
  else A i j

/-- SCFSolver::SuperCube: starting from the zero matrix of side (lmax+1)n,
write slice l of the cube as diagonal block l, for l = 0..lmax. -/
def SuperCube (lmax n : ℕ) (M : Cube) : Mat :=
  (List.range (lmax + 1)).foldl (fun A l => writeBlock n l (M l) A) matZero

/-- SCFSolver::SuperMat: the same block-diagonal packing with one repeated
matrix in every diagonal block. -/
def SuperMat (lmax n : ℕ) (Msub : Mat) : Mat :=
  (List.range (lmax + 1)).foldl (fun A l => writeBlock n l Msub A) matZero

/-- SCFSolver::MiniMat: slice l of the result is diagonal block l of the
supermatrix, for l = 0..lmax. -/
def MiniMat (lmax n : ℕ) (Msuper : Mat) : Cube := fun l i j =>
  if l < lmax + 1 then Msuper (l * n + i) (l * n + j) else 0

/-- An index determines its diagonal block. -/
theorem block_index_unique (n l l2 i : ℕ) (hn : 0 < n)
    (h1 : l * n ≤ i) (h2 : i < (l + 1) * n)
    (h3 : l2 * n ≤ i) (h4 : i < (l2 + 1) * n) : l = l2 := by
  have e1 : i / n = l := Nat.div_eq_of_lt_le h1 h2
  have e2 : i / n = l2 := Nat.div_eq_of_lt_le h3 h4
  omega

/-- Entries outside every written block keep their initial value. -/
theorem foldl_writeBlock_out (n : ℕ) (M : Cube) :
    ∀ (L : List ℕ) (A : Mat) (i j : ℕ),
    (∀ l ∈ L, ¬(l * n ≤ i ∧ i < (l + 1) * n ∧ l * n ≤ j ∧ j < (l + 1) * n)) →
    (L.foldl (fun B l => writeBlock n l (M l) B) A) i j = A i j := by
  intro L
  induction L with
  | nil => intro A i j _; rfl
  | cons x xs ih =>
    intro A i j hout
    rw [List.foldl_cons]
    rw [ih _ i j fun l hl => hout l (List.mem_cons_of_mem x hl)]
    exact if_neg (hout x (List.mem_cons_self x xs))

/-- Entries inside the block of a written slice hold that slice. -/
theorem foldl_writeBlock_mem (n : ℕ) (M : Cube) (hn : 0 < n) :
    ∀ (L : List ℕ) (A : Mat) (l i j : ℕ), l ∈ L →
    l * n ≤ i → i < (l + 1) * n → l * n ≤ j → j < (l + 1) * n →
    (L.foldl (fun B x => writeBlock n x (M x) B) A) i j = M l (i - l * n) (j - l * n) := by
  intro L
  induction L with
  | nil => intro A l i j hmem; exact absurd hmem (List.not_mem_nil l)
  | cons x xs ih =>
    intro A l i j hmem h1 h2 h3 h4
    rw [List.foldl_cons]
    by_cases hxs : l ∈ xs
    · exact ih _ l i j hxs h1 h2 h3 h4
    · have hlx : l = x := by
        rcases List.mem_cons.mp hmem with h | h
        · exact h
        · exact absurd h hxs
      rw [foldl_writeBlock_out n M xs _ i j ?side]
      · rw [← hlx]
        exact if_pos ⟨h1, h2, h3, h4⟩
      · intro l2 hl2 hcond
        exact hxs (by rw [block_index_unique n l l2 i hn h1 h2 hcond.1 hcond.2.1] ; exact hl2)

/-- C8: SuperCube produces the block-diagonal supermatrix, with slice l in
diagonal block l and zero in every off-diagonal block, and
MiniMat(SuperCube(M)) recovers every slice entry of M. -/
theorem C8_supercube_block_diagonal_roundtrip (lmax n : ℕ) (M : Cube) (hn : 0 < n) :
    (∀ l i j, l < lmax + 1 → i < n → j < n →
      SuperCube lmax n M (l * n + i) (l * n + j) = M l i j) ∧
    (∀ i j, i < (lmax + 1) * n → j < (lmax + 1) * n → i / n ≠ j / n →
      SuperCube lmax n M i j = 0) ∧
    (∀ l i j, l < lmax + 1 → i < n → j < n →
      MiniMat lmax n (SuperCube lmax n M) l i j = M l i j) := by
  have hblock : ∀ l i, l < lmax + 1 → i < n →
      l * n ≤ l * n + i ∧ l * n + i < (l + 1) * n := by
    intro l i _ hi
    constructor
    · omega
    · have : (l + 1) * n = l * n + n := by ring
      omega
  have hmain : ∀ l i j, l < lmax + 1 → i < n → j < n →
      SuperCube lmax n M (l * n + i) (l * n + j) = M l i j := by
    intro l i j hl hi hj
    unfold SuperCube
    rw [foldl_writeBlock_mem n M hn _ matZero l _ _ (List.mem_range.mpr hl)
      (hblock l i hl hi).1 (hblock l i hl hi).2 (hblock l j hl hj).1 (hblock l j hl hj).2]
    congr 1 <;> omega
  refine ⟨hmain, ?_, ?_⟩
  · intro i j hi hj hne
    unfold SuperCube
    rw [foldl_writeBlock_out n M _ matZero i j ?out]
    · rfl
    · intro l hl hcond
      have e1 : i / n = l := Nat.div_eq_of_lt_le hcond.1 hcond.2.1
      have e2 : j / n = l := Nat.div_eq_of_lt_le hcond.2.2.1 hcond.2.2.2
      omega
  · intro l i j hl hi hj
    unfold MiniMat
    rw [if_pos hl]
    exact hmain l i j hl hi hj

/-- Concrete two-slice cube for the C8 witness. -/
def cubeFix : Cube := fun l i j => (l : ℚ) * 4 + (i : ℚ) * 2 + (j : ℚ)

/-- Witness for C8 on a concrete 2-slice cube of 1-by-1 blocks. -/
theorem C8_supercube_block_diagonal_roundtrip_witness :
    SuperCube 1 1 cubeFix (1 * 1 + 0) (1 * 1 + 0) = cubeFix 1 0 0 ∧
    SuperCube 1 1 cubeFix 0 1 = 0 ∧
    MiniMat 1 1 (SuperCube 1 1 cubeFix) 0 0 0 = cubeFix 0 0 0 :=
  ⟨(C8_supercube_block_diagonal_roundtrip 1 1 cubeFix (by decide)).1 1 0 0
      (by decide) (by decide) (by decide),
    (C8_supercube_block_diagonal_roundtrip 1 1 cubeFix (by decide)).2.1 0 1
      (by decide) (by decide) (by decide),
    (C8_supercube_block_diagonal_roundtrip 1 1 cubeFix (by decide)).2.2 0 0 0
      (by decide) (by decide) (by decide)⟩

/-- The counting loop of OrbitalChannel::CountOccupied: radial shells that
take at least one electron, bounded by the number of orbital columns. -/
def countOccupiedAux (cap : ℤ) : ℕ → ℤ → ℕ
  | 0, _ => 0
  | fuel + 1, numl =>
    if min cap numl = 0 then 0
    else countOccupiedAux cap fuel (numl - min cap numl) + 1

/-- The per-channel accumulation loop of OrbitalChannel::UpdateDensity:
walk radial orbitals in column order, each taking min(capacity, electrons
left) electrons scaling its outer product, and stop at the first shell that
takes none. -/
def densLoop (cap : ℤ) (Cl : Mat) : ℕ → ℕ → ℤ → Mat
  | 0, _, _ => matZero
  | fuel + 1, io, numl =>
    if min cap numl = 0 then matZero
    else fun i j => ((min cap numl : ℤ) : ℚ) * Cl i io * Cl j io
      + densLoop cap Cl fuel (io + 1) (numl - min cap numl) i j

/-- The loop of OrbitalChannel::AngularDensity: as the density loop but each
outer product is weighted by the fractional occupation nocc/capacity. -/
def angDensLoop (cap : ℤ) (Cl : Mat) : ℕ → ℕ → ℤ → Mat
  | 0, _, _ => matZero
  | fuel + 1, io, numl =>
    if min cap numl = 0 then matZero
    else fun i j => ((min cap numl : ℤ) : ℚ) / (cap : ℚ) * Cl i io * Cl j io
      + angDensLoop cap Cl fuel (io + 1) (numl - min cap numl) i j

namespace OrbitalChannel

/-- OrbitalChannel::CountOccupied at channel l. -/
def CountOccupied (ch : OrbitalChannel) (l : ℕ) : ℕ :=
  countOccupiedAux (ch.ShellCap l) ch.CnCols (ch.occs.getD l 0)

/-- OrbitalChannel::UpdateDensity: one density slice per channel l of the
cube, zero slices elsewhere. -/
def UpdateDensity (ch : OrbitalChannel) : Cube := fun l =>
  if l < ch.lmax + 1 then densLoop (ch.ShellCap l) (ch.C l) ch.CnCols 0 (ch.occs.getD l 0)
  else matZero

/-- OrbitalChannel::AngularDensity: fractionally occupied density slices. -/
def AngularDensity (ch : OrbitalChannel) : Cube := fun l =>
  if l < ch.lmax + 1 then angDensLoop (ch.ShellCap l) (ch.C l) ch.CnCols 0 (ch.occs.getD l 0)
  else matZero

/-- OrbitalChannel::UpdateOrbitals with the external generalized eigensolver
eig_gsym as an oracle returning ascending eigenvalues and eigenvectors:
resize E and C to the Fock dimensions and refresh every channel l from its
Fock slice. -/
def UpdateOrbitals (eig : Mat → Mat → (ℕ → ℚ) × Mat) (ch : OrbitalChannel)
    (F : Cube) (FnRows : ℕ) (Sinvh : Mat) : OrbitalChannel :=
  { ch with
    E := fun io l => if l < ch.lmax + 1 then (eig (F l) Sinvh).1 io else 0
    EnRows := FnRows
    EnCols := ch.lmax + 1
    C := fun l => if l < ch.lmax + 1 then (eig (F l) Sinvh).2 else matZero
    CnRows := FnRows
    CnCols := FnRows
    CnElem := FnRows * FnRows * (ch.lmax + 1) }

/-- The level-shift matrix shift * S * Cv * Cv^T * S, with Cv the virtual
orbital columns nsh..CnCols-1 of channel l. -/
def shiftMat (ch : OrbitalChannel) (l nsh : ℕ) (S : Mat) (shift : ℚ) : Mat :=
  matSmul shift
    (matMul ch.CnRows
      (matMul (ch.CnCols - nsh)
        (matMul ch.CnRows S (fun i j => ch.C l i (nsh + j)))
        (matTrans fun i j => ch.C l i (nsh + j)))
      S)

/-- OrbitalChannel::UpdateOrbitalsShifted with the eigensolver oracle: a
channel with occupied shells diagonalizes its Fock slice plus the level
shift built from its virtual orbitals; a channel with none diagonalizes the
untouched Fock slice. -/
def UpdateOrbitalsShifted (eig : Mat → Mat → (ℕ → ℚ) × Mat) (ch : OrbitalChannel)
    (F : Cube) (FnRows : ℕ) (Sinvh S : Mat) (shift : ℚ) : OrbitalChannel :=
  { ch with
    E := fun io l =>
      if l < ch.lmax + 1 then
        if ch.CountOccupied l ≠ 0 then
          (eig (matAdd (F l) (ch.shiftMat l (ch.CountOccupied l) S shift)) Sinvh).1 io
        else (eig (F l) Sinvh).1 io
      else 0
    EnRows := FnRows
    EnCols := ch.lmax + 1
    C := fun l =>
      if l < ch.lmax + 1 then
        if ch.CountOccupied l ≠ 0 then
          (eig (matAdd (F l) (ch.shiftMat l (ch.CountOccupied l) S shift)) Sinvh).2
        else (eig (F l) Sinvh).2
      else matZero
    CnRows := FnRows
    CnCols := FnRows
    CnElem := FnRows * FnRows * (ch.lmax + 1) }

end OrbitalChannel

/-- C9: on a channel l with zero occupied shells, the level shift is skipped
and UpdateOrbitalsShifted stores exactly the eigenvalues and eigenvectors of
the plain UpdateOrbitals refresh of the same Fock slice. -/
theorem C9_shifted_refresh_skips_empty_channels
    (eig : Mat → Mat → (ℕ → ℚ) × Mat) (ch : OrbitalChannel) (F : Cube)
    (FnRows : ℕ) (Sinvh S : Mat) (shift : ℚ) (l : ℕ)
    (hl : l < ch.lmax + 1) (h0 : ch.CountOccupied l = 0) :
    (∀ io, (ch.UpdateOrbitalsShifted eig F FnRows Sinvh S shift).E io l
        = (ch.UpdateOrbitals eig F FnRows Sinvh).E io l) ∧
    (ch.UpdateOrbitalsShifted eig F FnRows Sinvh S shift).C l
        = (ch.UpdateOrbitals eig F FnRows Sinvh).C l := by
  constructor
  · intro io
    show (if l < ch.lmax + 1 then
        if ch.CountOccupied l ≠ 0 then
          (eig (matAdd (F l) (ch.shiftMat l (ch.CountOccupied l) S shift)) Sinvh).1 io
        else (eig (F l) Sinvh).1 io
      else 0) = (if l < ch.lmax + 1 then (eig (F l) Sinvh).1 io else 0)
    rw [if_pos hl, if_pos hl, if_neg (by omega)]
  · show (if l < ch.lmax + 1 then
        if ch.CountOccupied l ≠ 0 then
          (eig (matAdd (F l) (ch.shiftMat l (ch.CountOccupied l) S shift)) Sinvh).2
        else (eig (F l) Sinvh).2
      else matZero) = (if l < ch.lmax + 1 then (eig (F l) Sinvh).2 else matZero)
    rw [if_pos hl, if_pos hl, if_neg (by omega)]

/-- A concrete eigensolver oracle for witnesses. -/
def eigFix : Mat → Mat → (ℕ → ℚ) × Mat := fun F _ => (fun io => F io io, matTrans F)

/-- Witness for C9: the fixture channel has no occupied shell in channel 0,
so the shifted refresh there equals the plain refresh. -/
theorem C9_shifted_refresh_skips_empty_channels_witness :
    (0 < chFix.lmax + 1 ∧ chFix.CountOccupied 0 = 0) ∧
    ((∀ io, (chFix.UpdateOrbitalsShifted eigFix cubeFix 1 matZero matZero 2).E io 0
        = (chFix.UpdateOrbitals eigFix cubeFix 1 matZero).E io 0) ∧
      (chFix.UpdateOrbitalsShifted eigFix cubeFix 1 matZero matZero 2).C 0
        = (chFix.UpdateOrbitals eigFix cubeFix 1 matZero).C 0) :=
  ⟨⟨by decide, by decide⟩,
    C9_shifted_refresh_skips_empty_channels eigFix chFix cubeFix 1 matZero matZero 2 0
      (by decide) (by decide)⟩

/-- External DIIS accelerator of the restricted solver (class rDIIS of
../general/diis.h, outside the excerpted core): an abstract history state
with the fresh state built in the rDIIS constructor, the update entry point
returning the new state and the scalar error estimate, and solve_F giving
the extrapolated Fock supermatrix. -/
structure rDIISOracle (Dst : Type) where
  fresh : Dst
  update : Dst → Mat → Mat → ℚ → Dst × ℚ
  solveF : Dst → Mat → Mat

/-- External DIIS accelerator of the unrestricted solver (class uDIIS):
update takes both spin Fock and density supermatrices, solve_F extrapolates
both spin Fock supermatrices. -/
structure uDIISOracle (Dst : Type) where
  fresh : Dst
  update : Dst → Mat → Mat → Mat → Mat → ℚ → Dst × ℚ
  solveF : Dst → Mat → Mat → Mat × Mat

/-- SCFSolver: the angular cutoff lmax, the radial basis size nbf, the
fixed basis matrices, the functional selection with its fixed
range-separation fractions (the range_separation output for x_func), the
iteration controls, and the external operator oracles: the Coulomb and the
two exchange operators, the two DFT grid evaluators of each spin variant
(each returning the potential, the XC energy and the integrated electron
count; the meta variants fold full_density, the full angular grid and
make_m_average into one call), and the generalized eigensolver. The angular
factor 4 pi is carried as a parameter because pi is not rational. -/
structure SCFSolver where
  lmax : ℕ
  nbf : ℕ
  S : Mat
  Sinvh : Mat
  T : Mat
  Tl : Mat
  Vnuc : Mat
  xFunc : ℤ
  cFunc : ℤ
  maxit : ℕ
  shift : ℚ
  convthr : ℚ
  dftthr : ℚ
  diiseps : ℚ
  diisthr : ℚ
  diisorder : ℕ
  angfac : ℚ
  kfrac : ℚ
  kshort : ℚ
  isMeta : Bool
  coulomb : Mat → Mat
  exchange : Cube → Cube
  rsExchange : Cube → Cube
  evalFxc : Mat → Mat × ℚ × ℚ
  evalFxcMeta : Cube → Cube × ℚ × ℚ
  uEvalFxc : Mat → Mat → (Mat × Mat) × ℚ × ℚ
  uEvalFxcMeta : Cube → Cube → (Cube × Cube) × ℚ × ℚ
  eig : Mat → Mat → (ℕ → ℚ) × Mat

/-- SCFSolver::TotalDensity: sum the slices of a density cube. -/
def totalDensity (L : ℕ) (Pl : Cube) : Mat := fun i j =>
  ∑ l ∈ Finset.range L, Pl l i j

namespace SCFSolver

/-- The core Hamiltonian H0 = T + Vnuc. -/
def H0 (sv : SCFSolver) : Mat := matAdd sv.T sv.Vnuc

/-- SCFSolver::KineticCube: slice l holds l(l+1) Tl. -/
def KineticCube (sv : SCFSolver) : Cube := fun l =>
  if l < sv.lmax + 1 then matSmul ((l * (l + 1) : ℕ) : ℚ) sv.Tl else matZero

/-- SCFSolver::ReplicateCube: every slice 0..lmax holds M. -/
def ReplicateCube (sv : SCFSolver) (M : Mat) : Cube := fun l =>
  if l < sv.lmax + 1 then M else matZero

/-- SCFSolver::FockBuild on a restricted configuration, returning the
updated configuration together with the returned energy. Follows the
source order: density refresh, kinetic and nuclear energies, the Coulomb
matrix with its energy, the XC branch (full angular resolution for
meta functionals, radial average otherwise), the optional exact and
range-separated exchange with its energy added into Exc, the Fock
assembly, and finally Econf = Ekin + Epot + Ecoul + Exc. -/
def FockBuild (sv : SCFSolver) (conf : rconf_t) : rconf_t × ℚ :=
  let Pl := conf.orbs.UpdateDensity
  let P := totalDensity (conf.orbs.lmax + 1) Pl
  let kc := sv.KineticCube
  let Ekin := traceProd sv.nbf P sv.T
    + ∑ l ∈ Finset.range (sv.lmax + 1), traceProd sv.nbf (Pl l) (kc l)
  let Epot := traceProd sv.nbf P sv.Vnuc
  let J := sv.coulomb fun i j => P i j / sv.angfac
  let Ecoul := 1 / 2 * traceProd sv.nbf P J
  let xcOn := decide (0 < sv.xFunc) || decide (0 < sv.cFunc)
  let xcRes : Cube × ℚ :=
    if xcOn then
      if sv.isMeta then
        let r := sv.evalFxcMeta Pl
        (r.1, r.2.1)
      else
        let r := sv.evalFxc fun i j => P i j / sv.angfac
        (sv.ReplicateCube fun i j => r.1 i j / sv.angfac, r.2.1)
    else (cubeZero, 0)
  let exxOn := decide (sv.kfrac ≠ 0) || decide (sv.kshort ≠ 0)
  let K : Cube := cubeAdd
    (if decide (sv.kfrac ≠ 0) then fun l => matSmul sv.kfrac (sv.exchange conf.orbs.AngularDensity l)
      else cubeZero)
    (if decide (sv.kshort ≠ 0) then fun l => matSmul sv.kshort (sv.rsExchange conf.orbs.AngularDensity l)
      else cubeZero)
  let Exx := if exxOn then
      ∑ l ∈ Finset.range (sv.lmax + 1), 1 / 2 * traceProd sv.nbf (K l) (Pl l)
    else 0
  let Exc := xcRes.2 + Exx
  let Fl0 := cubeAdd (sv.ReplicateCube (matAdd sv.H0 J)) kc
  let Fl1 := if exxOn then cubeAdd Fl0 K else Fl0
  let Fl2 := if xcOn then cubeAdd Fl1 xcRes.1 else Fl1
  let Econf := Ekin + Epot + Ecoul + Exc
  ({ conf with
      Pl := Pl
      Fl := Fl2
      Econf := Econf
      Ekin := Ekin
      Epot := Epot
      Ecoul := Ecoul
      Exc := Exc }, Econf)

/-- SCFSolver::FockBuild on an unrestricted configuration. Both spin
densities are refreshed, the Coulomb matrix couples through their sum, the
XC evaluation always runs (only its addition into the Fock matrices is
guarded by the functional selection, as in the source), the optional exact
and range-separated exchange acts per spin, Fbl starts as a copy of Fal,
and Econf = Ekin + Epot + Ecoul + Exc. -/
def uFockBuild (sv : SCFSolver) (conf : uconf_t) : uconf_t × ℚ :=
  let Pal := conf.orbsa.UpdateDensity
  let Pbl := conf.orbsb.UpdateDensity
  let Pl := cubeAdd Pal Pbl
  let Pa := totalDensity (conf.orbsa.lmax + 1) Pal
  let Pb := totalDensity (conf.orbsb.lmax + 1) Pbl
  let P := matAdd Pa Pb
  let kc := sv.KineticCube
  let Ekin := traceProd sv.nbf P sv.T
    + ∑ l ∈ Finset.range (sv.lmax + 1), traceProd sv.nbf (Pl l) (kc l)
  let Epot := traceProd sv.nbf P sv.Vnuc
  let J := sv.coulomb fun i j => P i j / sv.angfac
  let Ecoul := 1 / 2 * traceProd sv.nbf P J
  let xcRes : (Cube × Cube) × ℚ :=
    if sv.isMeta then
      let r := sv.uEvalFxcMeta Pal Pbl
      (r.1, r.2.1)
    else
      let r := sv.uEvalFxc (fun i j => Pa i j / sv.angfac) (fun i j => Pb i j / sv.angfac)
      ((sv.ReplicateCube fun i j => r.1.1 i j / sv.angfac,
        sv.ReplicateCube fun i j => r.1.2 i j / sv.angfac), r.2.1)
  let exxOn := decide (sv.kfrac ≠ 0) || decide (sv.kshort ≠ 0)
  let Ka : Cube := cubeAdd
    (if decide (sv.kfrac ≠ 0) then fun l => matSmul sv.kfrac (sv.exchange conf.orbsa.AngularDensity l)
      else cubeZero)
    (if decide (sv.kshort ≠ 0) then fun l => matSmul sv.kshort (sv.rsExchange conf.orbsa.AngularDensity l)
      else cubeZero)
  let Kb : Cube := cubeAdd
    (if decide (sv.kfrac ≠ 0) then fun l => matSmul sv.kfrac (sv.exchange conf.orbsb.AngularDensity l)
      else cubeZero)
    (if decide (sv.kshort ≠ 0) then fun l => matSmul sv.kshort (sv.rsExchange conf.orbsb.AngularDensity l)
      else cubeZero)
  let Exx := if exxOn then
      ∑ l ∈ Finset.range (sv.lmax + 1),
        (1 / 2 * traceProd sv.nbf (Ka l) (Pal l) + 1 / 2 * traceProd sv.nbf (Kb l) (Pbl l))
    else 0
  let Exc := xcRes.2 + Exx
  let Fal0 := cubeAdd (sv.ReplicateCube (matAdd sv.H0 J)) kc
  let Fbl0 := Fal0
  let Fal1 := if exxOn then cubeAdd Fal0 Ka else Fal0
  let Fbl1 := if exxOn then cubeAdd Fbl0 Kb else Fbl0
  let xcAdd := decide (0 < sv.xFunc) || decide (0 < sv.cFunc)
  let Fal2 := if xcAdd then cubeAdd Fal1 xcRes.1.1 else Fal1
  let Fbl2 := if xcAdd then cubeAdd Fbl1 xcRes.1.2 else Fbl1
  let Econf := Ekin + Epot + Ecoul + Exc
  ({ conf with
      Pal := Pal
      Pbl := Pbl
      Fal := Fal2
      Fbl := Fbl2
      Econf := Econf
      Ekin := Ekin
      Epot := Epot
      Ecoul := Ecoul
      Exc := Exc }, Econf)

end SCFSolver

/-- C6: after FockBuild (restricted or unrestricted) the stored total energy
is exactly the sum of the four stored components, and the returned value is
that Econf. -/
theorem C6_fockbuild_energy_decomposition :
    (∀ (sv : SCFSolver) (conf : rconf_t),
      (sv.FockBuild conf).1.Econf
        = (sv.FockBuild conf).1.Ekin + (sv.FockBuild conf).1.Epot
          + (sv.FockBuild conf).1.Ecoul + (sv.FockBuild conf).1.Exc ∧
      (sv.FockBuild conf).2 = (sv.FockBuild conf).1.Econf) ∧
    (∀ (sv : SCFSolver) (conf : uconf_t),
      (sv.uFockBuild conf).1.Econf
        = (sv.uFockBuild conf).1.Ekin + (sv.uFockBuild conf).1.Epot
          + (sv.uFockBuild conf).1.Ecoul + (sv.uFockBuild conf).1.Exc ∧
      (sv.uFockBuild conf).2 = (sv.uFockBuild conf).1.Econf) :=
  ⟨fun _ _ => ⟨rfl, rfl⟩, fun _ _ => ⟨rfl, rfl⟩⟩

/-- One iteration of SCFSolver::Solve on a restricted configuration. State:
DIIS history, the energy E of the previous iteration (0.0 before the first)
and the configuration. In source order: FockBuild, pack the Fock and
density cubes into supermatrices, DIIS update giving the error estimate,
the convergence flag from the error and the energy change, the DIIS Fock
extrapolation unpacked back into the configuration, then the orbital
refresh, level-shifted while the error is above diisthr. -/
def rSolveStep {Dst : Type} (sv : SCFSolver) (dOr : rDIISOracle Dst)
    (s : Dst × ℚ × rconf_t) : Dst × ℚ × rconf_t :=
  let fb := sv.FockBuild s.2.2
  let conf1 := fb.1
  let E := fb.2
  let dE := E - s.2.1
  let Fsuper := SuperCube sv.lmax sv.nbf conf1.Fl
  let Psuper := SuperCube sv.lmax sv.nbf conf1.Pl
  let du := dOr.update s.1 Fsuper Psuper E
  let conv := decide (du.2 < sv.convthr) && decide (|dE| < sv.convthr)
  let Fl2 := MiniMat sv.lmax sv.nbf (dOr.solveF du.1 Fsuper)
  let orbs2 :=
    if decide (du.2 > sv.diisthr) then
      conf1.orbs.UpdateOrbitalsShifted sv.eig Fl2 sv.nbf sv.Sinvh sv.S sv.shift
    else
      conf1.orbs.UpdateOrbitals sv.eig Fl2 sv.nbf sv.Sinvh
  (du.1, E, { conf1 with converged := conv, Fl := Fl2, orbs := orbs2 })

/-- The iteration loop of SCFSolver::Solve on a restricted configuration,
with the remaining iteration budget as fuel; returns the final state and
the number of iterations executed. The loop leaves as soon as the
convergence flag was set, after the orbital refresh of that iteration. -/
def rSolveLoop {Dst : Type} (sv : SCFSolver) (dOr : rDIISOracle Dst) :
    ℕ → Dst × ℚ × rconf_t → (Dst × ℚ × rconf_t) × ℕ
  | 0, s => (s, 0)
  | fuel + 1, s =>
    let s2 := rSolveStep sv dOr s
    if s2.2.2.converged then (s2, 1)
    else ((rSolveLoop sv dOr fuel s2).1, (rSolveLoop sv dOr fuel s2).2 + 1)

/-- SCFSolver::Solve on a restricted configuration: the three precondition
checks throw logic_error in source order (orbitals initialized, restricted
orbitals, occupation vector length lmax+1), then the iteration loop runs
with fresh DIIS state, previous energy 0.0 and at most maxit iterations.
Ends normally whether or not the convergence flag was reached. -/
def rSolve {Dst : Type} (sv : SCFSolver) (dOr : rDIISOracle Dst) (conf : rconf_t) :
    Except String ((Dst × ℚ × rconf_t) × ℕ) :=
  if conf.orbs.OrbitalsInit = false then .error "Orbitals not initialized!"
  else if conf.orbs.Restricted = false then
    .error "Running restricted calculation with unrestricted orbitals!"
  else if conf.orbs.occs.length ≠ sv.lmax + 1 then
    .error "Occupation vector is of wrong length!"
  else .ok (rSolveLoop sv dOr sv.maxit (dOr.fresh, 0, conf))

/-- One iteration of SCFSolver::Solve on an unrestricted configuration:
as the restricted step, with both spin channels packed, extrapolated and
refreshed. -/
def uSolveStep {Dst : Type} (sv : SCFSolver) (dOr : uDIISOracle Dst)
    (s : Dst × ℚ × uconf_t) : Dst × ℚ × uconf_t :=
  let fb := sv.uFockBuild s.2.2
  let conf1 := fb.1
  let E := fb.2
  let dE := E - s.2.1
  let Fasuper := SuperCube sv.lmax sv.nbf conf1.Fal
  let Fbsuper := SuperCube sv.lmax sv.nbf conf1.Fbl
  let Pasuper := SuperCube sv.lmax sv.nbf conf1.Pal
  let Pbsuper := SuperCube sv.lmax sv.nbf conf1.Pbl
  let du := dOr.update s.1 Fasuper Fbsuper Pasuper Pbsuper E
  let conv := decide (du.2 < sv.convthr) && decide (|dE| < sv.convthr)
  let Fs := dOr.solveF du.1 Fasuper Fbsuper
  let Fal2 := MiniMat sv.lmax sv.nbf Fs.1
  let Fbl2 := MiniMat sv.lmax sv.nbf Fs.2
  let orbsa2 :=
    if decide (du.2 > sv.diisthr) then
      conf1.orbsa.UpdateOrbitalsShifted sv.eig Fal2 sv.nbf sv.Sinvh sv.S sv.shift
    else
      conf1.orbsa.UpdateOrbitals sv.eig Fal2 sv.nbf sv.Sinvh
  let orbsb2 :=
    if decide (du.2 > sv.diisthr) then
      conf1.orbsb.UpdateOrbitalsShifted sv.eig Fbl2 sv.nbf sv.Sinvh sv.S sv.shift
    else
      conf1.orbsb.UpdateOrbitals sv.eig Fbl2 sv.nbf sv.Sinvh
  (du.1, E,
    { conf1 with
      converged := conv
      Fal := Fal2
      Fbl := Fbl2
      orbsa := orbsa2
      orbsb := orbsb2 })

/-- The iteration loop of SCFSolver::Solve on an unrestricted
configuration. -/
def uSolveLoop {Dst : Type} (sv : SCFSolver) (dOr : uDIISOracle Dst) :
    ℕ → Dst × ℚ × uconf_t → (Dst × ℚ × uconf_t) × ℕ
  | 0, s => (s, 0)
  | fuel + 1, s =>
    let s2 := uSolveStep sv dOr s
    if s2.2.2.converged then (s2, 1)
    else ((uSolveLoop sv dOr fuel s2).1, (uSolveLoop sv dOr fuel s2).2 + 1)

/-- SCFSolver::Solve on an unrestricted configuration: the six precondition
checks in source order (both channels initialized, both occupation vectors
of length lmax+1, both channels unrestricted), then the iteration loop. -/
def uSolve {Dst : Type} (sv : SCFSolver) (dOr : uDIISOracle Dst) (conf : uconf_t) :
    Except String ((Dst × ℚ × uconf_t) × ℕ) :=
  if conf.orbsa.OrbitalsInit = false then .error "Orbitals not initialized!"
  else if conf.orbsb.OrbitalsInit = false then .error "Orbitals not initialized!"
  else if conf.orbsa.occs.length ≠ sv.lmax + 1 then
    .error "Occupation vector is of wrong length!"
  else if conf.orbsb.occs.length ≠ sv.lmax + 1 then
    .error "Occupation vector is of wrong length!"
  else if conf.orbsa.Restricted = true then
    .error "Running unrestricted calculation with restricted orbitals!"
  else if conf.orbsb.Restricted = true then
    .error "Running unrestricted calculation with restricted orbitals!"
  else .ok (uSolveLoop sv dOr sv.maxit (dOr.fresh, 0, conf))

/-- C3: Solve throws InvalidState (std::logic_error) before iterating
exactly when a precondition fails: for the restricted variant, orbitals not
initialized, unrestricted orbitals, or occupation length different from
lmax+1; for the unrestricted variant, either channel uninitialized, either
occupation length different from lmax+1, or either channel restricted. -/
theorem C3_solve_precondition_invalid_state :
    (∀ (Dst : Type) (sv : SCFSolver) (dOr : rDIISOracle Dst) (conf : rconf_t),
      (∃ msg, rSolve sv dOr conf = .error msg) ↔
        (conf.orbs.OrbitalsInit = false ∨ conf.orbs.Restricted = false ∨
          conf.orbs.occs.length ≠ sv.lmax + 1)) ∧
    (∀ (Dst : Type) (sv : SCFSolver) (dOr : uDIISOracle Dst) (conf : uconf_t),
      (∃ msg, uSolve sv dOr conf = .error msg) ↔
        (conf.orbsa.OrbitalsInit = false ∨ conf.orbsb.OrbitalsInit = false ∨
          conf.orbsa.occs.length ≠ sv.lmax + 1 ∨ conf.orbsb.occs.length ≠ sv.lmax + 1 ∨
          conf.orbsa.Restricted = true ∨ conf.orbsb.Restricted = true)) := by
  constructor
  · intro Dst sv dOr conf
    unfold rSolve
    by_cases h1 : conf.orbs.OrbitalsInit = false
    · simp [h1]
    · rw [if_neg h1]
      by_cases h2 : conf.orbs.Restricted = false
      · simp [h1, h2]
      · rw [if_neg h2]
        by_cases h3 : conf.orbs.occs.length ≠ sv.lmax + 1
        · simp [h1, h2, h3]
        · simp [h1, h2, h3]
  · intro Dst sv dOr conf
    unfold uSolve
    by_cases h1 : conf.orbsa.OrbitalsInit = false
    · simp [h1]
    · rw [if_neg h1]
      by_cases h2 : conf.orbsb.OrbitalsInit = false
      · simp [h1, h2]
      · rw [if_neg h2]
        by_cases h3 : conf.orbsa.occs.length ≠ sv.lmax + 1
        · simp [h1, h2, h3]
        · rw [if_neg h3]
          by_cases h4 : conf.orbsb.occs.length ≠ sv.lmax + 1
          · simp [h1, h2, h3, h4]
          · rw [if_neg h4]
            by_cases h5 : conf.orbsa.Restricted = true
            · simp [h1, h2, h3, h4, h5]
            · rw [if_neg h5]
              by_cases h6 : conf.orbsb.Restricted = true
              · simp [h1, h2, h3, h4, h5, h6]
              · simp [h1, h2, h3, h4, h5, h6]

/-- The DIIS error estimate produced inside one restricted iteration. -/
def rStepErr {Dst : Type} (sv : SCFSolver) (dOr : rDIISOracle Dst)
    (s : Dst × ℚ × rconf_t) : ℚ :=
  (dOr.update s.1 (SuperCube sv.lmax sv.nbf (sv.FockBuild s.2.2).1.Fl)
    (SuperCube sv.lmax sv.nbf (sv.FockBuild s.2.2).1.Pl) (sv.FockBuild s.2.2).2).2

/-- The DIIS error estimate produced inside one unrestricted iteration. -/
def uStepErr {Dst : Type} (sv : SCFSolver) (dOr : uDIISOracle Dst)
    (s : Dst × ℚ × uconf_t) : ℚ :=
  (dOr.update s.1 (SuperCube sv.lmax sv.nbf (sv.uFockBuild s.2.2).1.Fal)
    (SuperCube sv.lmax sv.nbf (sv.uFockBuild s.2.2).1.Fbl)
    (SuperCube sv.lmax sv.nbf (sv.uFockBuild s.2.2).1.Pal)
    (SuperCube sv.lmax sv.nbf (sv.uFockBuild s.2.2).1.Pbl) (sv.uFockBuild s.2.2).2).2

/-- The convergence flag written by one restricted iteration. -/
theorem rSolveStep_converged_eq {Dst : Type} (sv : SCFSolver) (dOr : rDIISOracle Dst)
    (s : Dst × ℚ × rconf_t) :
    (rSolveStep sv dOr s).2.2.converged
      = (decide (rStepErr sv dOr s < sv.convthr)
          && decide (|(sv.FockBuild s.2.2).2 - s.2.1| < sv.convthr)) := rfl

/-- The convergence flag written by one unrestricted iteration. -/
theorem uSolveStep_converged_eq {Dst : Type} (sv : SCFSolver) (dOr : uDIISOracle Dst)
    (s : Dst × ℚ × uconf_t) :
    (uSolveStep sv dOr s).2.2.converged
      = (decide (uStepErr sv dOr s < sv.convthr)
          && decide (|(sv.uFockBuild s.2.2).2 - s.2.1| < sv.convthr)) := rfl

/-- A run of the restricted loop in which no iteration sets the flag
executes every budgeted iteration and ends at the iterated step state. -/
theorem rSolveLoop_full {Dst : Type} (sv : SCFSolver) (dOr : rDIISOracle Dst) :
    ∀ (fuel : ℕ) (s0 : Dst × ℚ × rconf_t), 0 < fuel →
    (∀ k, k < fuel → ((rSolveStep sv dOr)^[k + 1] s0).2.2.converged = false) →
    rSolveLoop sv dOr fuel s0 = ((rSolveStep sv dOr)^[fuel] s0, fuel) := by
  intro fuel
  induction fuel with
  | zero => intro s0 h; omega
  | succ n ih =>
    intro s0 _ hall
    have h1 : (rSolveStep sv dOr s0).2.2.converged = false := by
      have h := hall 0 (by omega)
      rwa [Function.iterate_one] at h
    show rSolveLoop sv dOr (n + 1) s0 = _
    rw [rSolveLoop]
    simp only [h1, Bool.false_eq_true, if_false]
    cases n with
    | zero =>
      rw [rSolveLoop]
      simp [Function.iterate_one]
    | succ m =>
      have h2 := ih (rSolveStep sv dOr s0) (by omega) fun k hk => by
        have h := hall (k + 1) (by omega)
        rwa [Function.iterate_succ_apply] at h
      rw [h2]
      simp [Function.iterate_succ_apply]

/-- A run of the unrestricted loop in which no iteration sets the flag
executes every budgeted iteration and ends at the iterated step state. -/
theorem uSolveLoop_full {Dst : Type} (sv : SCFSolver) (dOr : uDIISOracle Dst) :
    ∀ (fuel : ℕ) (s0 : Dst × ℚ × uconf_t), 0 < fuel →
    (∀ k, k < fuel → ((uSolveStep sv dOr)^[k + 1] s0).2.2.converged = false) →
    uSolveLoop sv dOr fuel s0 = ((uSolveStep sv dOr)^[fuel] s0, fuel) := by
  intro fuel
  induction fuel with
  | zero => intro s0 h; omega
  | succ n ih =>
    intro s0 _ hall
    have h1 : (uSolveStep sv dOr s0).2.2.converged = false := by
      have h := hall 0 (by omega)
      rwa [Function.iterate_one] at h
    show uSolveLoop sv dOr (n + 1) s0 = _
    rw [uSolveLoop]
    simp only [h1, Bool.false_eq_true, if_false]
    cases n with
    | zero =>
      rw [uSolveLoop]
      simp [Function.iterate_one]
    | succ m =>
      have h2 := ih (uSolveStep sv dOr s0) (by omega) fun k hk => by
        have h := hall (k + 1) (by omega)
        rwa [Function.iterate_succ_apply] at h
      rw [h2]
      simp [Function.iterate_succ_apply]

/-- C2: in every iteration of Solve (both variants), the converged flag is
set exactly when the accelerator error is below convthr and the absolute
energy change since the previous iteration is below convthr; the energy
state of an iteration is always the Econf stored in the configuration; and
when no iteration of the budget sets the flag, the loop returns normally
after exactly the budgeted number of iterations with the final state equal
to the iterated step state, so the last energy and the last extrapolated
Fock matrix remain in the configuration and the flag remains false. -/
theorem C2_convergence_flag_and_nonconvergence :
    (∀ (Dst : Type) (sv : SCFSolver) (dOr : rDIISOracle Dst) (s : Dst × ℚ × rconf_t),
      ((rSolveStep sv dOr s).2.2.converged = true ↔
        (rStepErr sv dOr s < sv.convthr ∧
          |(sv.FockBuild s.2.2).2 - s.2.1| < sv.convthr)) ∧
      (rSolveStep sv dOr s).2.1 = (rSolveStep sv dOr s).2.2.Econf) ∧
    (∀ (Dst : Type) (sv : SCFSolver) (dOr : rDIISOracle Dst) (fuel : ℕ)
        (s0 : Dst × ℚ × rconf_t), 0 < fuel →
      (∀ k, k < fuel → ((rSolveStep sv dOr)^[k + 1] s0).2.2.converged = false) →
      rSolveLoop sv dOr fuel s0 = ((rSolveStep sv dOr)^[fuel] s0, fuel)) ∧
    (∀ (Dst : Type) (sv : SCFSolver) (dOr : uDIISOracle Dst) (s : Dst × ℚ × uconf_t),
      ((uSolveStep sv dOr s).2.2.converged = true ↔
        (uStepErr sv dOr s < sv.convthr ∧
          |(sv.uFockBuild s.2.2).2 - s.2.1| < sv.convthr)) ∧
      (uSolveStep sv dOr s).2.1 = (uSolveStep sv dOr s).2.2.Econf) ∧
    (∀ (Dst : Type) (sv : SCFSolver) (dOr : uDIISOracle Dst) (fuel : ℕ)
        (s0 : Dst × ℚ × uconf_t), 0 < fuel →
      (∀ k, k < fuel → ((uSolveStep sv dOr)^[k + 1] s0).2.2.converged = false) →
      uSolveLoop sv dOr fuel s0 = ((uSolveStep sv dOr)^[fuel] s0, fuel)) := by
  refine ⟨fun Dst sv dOr s => ⟨?_, rfl⟩, fun Dst => rSolveLoop_full,
    fun Dst sv dOr s => ⟨?_, rfl⟩, fun Dst => uSolveLoop_full⟩
  · rw [rSolveStep_converged_eq]
    simp
  · rw [uSolveStep_converged_eq]
    simp

/-- Degenerate concrete solver fixture: one radial function, lmax = 0, all
basis matrices zero, a pure exchange functional whose grid evaluation
returns XC energy 1, no exact exchange, convthr = diisthr = 1, three
iterations allowed. Every FockBuild on it returns energy 1. -/
def svFix : SCFSolver where
  lmax := 0
  nbf := 1
  S := matZero
  Sinvh := matZero
  T := matZero
  Tl := matZero
  Vnuc := matZero
  xFunc := 1
  cFunc := 0
  maxit := 3
  shift := 2
  convthr := 1
  dftthr := 0
  diiseps := 1
  diisthr := 1
  diisorder := 5
  angfac := 1
  kfrac := 0
  kshort := 0
  isMeta := false
  coulomb := fun _ => matZero
  exchange := fun _ => cubeZero
  rsExchange := fun _ => cubeZero
  evalFxc := fun _ => (matZero, 1, 0)
  evalFxcMeta := fun _ => (cubeZero, 1, 0)
  uEvalFxc := fun _ _ => ((matZero, matZero), 1, 0)
  uEvalFxcMeta := fun _ _ => ((cubeZero, cubeZero), 1, 0)
  eig := fun _ _ => (fun _ => 0, matZero)

/-- Concrete restricted DIIS oracle whose error estimate is always zero. -/
def dOrZero : rDIISOracle Unit := ⟨(), fun _ _ _ _ => ((), 0), fun _ F => F⟩

/-- Concrete restricted DIIS oracle whose error estimate is always one. -/
def dOrErr : rDIISOracle Unit := ⟨(), fun _ _ _ _ => ((), 1), fun _ F => F⟩

/-- Concrete unrestricted DIIS oracle whose error estimate is always one. -/
def uDOrErr : uDIISOracle Unit := ⟨(), fun _ _ _ _ _ _ => ((), 1), fun _ Fa Fb => (Fa, Fb)⟩

/-- On the degenerate fixture every FockBuild returns energy 1: all traces
vanish on the zero basis matrices and only the XC energy of the grid oracle
remains. -/
theorem svFix_fock_energy (conf : rconf_t) : (svFix.FockBuild conf).2 = 1 := by
  unfold SCFSolver.FockBuild
  simp only [svFix]
  norm_num [traceProd, matZero, matSmul, SCFSolver.KineticCube, SCFSolver.ReplicateCube,
    cubeZero, apply_ite, Finset.sum_range_one]

/-- The energy state written by one restricted iteration is the FockBuild
return value. -/
theorem rSolveStep_fst_E {Dst : Type} (sv : SCFSolver) (dOr : rDIISOracle Dst)
    (s : Dst × ℚ × rconf_t) : (rSolveStep sv dOr s).2.1 = (sv.FockBuild s.2.2).2 := rfl

/-- The energy state written by one unrestricted iteration is the uFockBuild
return value. -/
theorem uSolveStep_fst_E {Dst : Type} (sv : SCFSolver) (dOr : uDIISOracle Dst)
    (s : Dst × ℚ × uconf_t) : (uSolveStep sv dOr s).2.1 = (sv.uFockBuild s.2.2).2 := rfl

/-- On the degenerate fixture every iteration writes energy 1. -/
theorem svFix_step_E (dOr : rDIISOracle Unit) (s : Unit × ℚ × rconf_t) :
    (rSolveStep svFix dOr s).2.1 = 1 :=
  (rSolveStep_fst_E svFix dOr s).trans (svFix_fock_energy s.2.2)

/-- On the degenerate fixture with the zero-error accelerator, the
convergence flag of an iteration reduces to the energy-change test against
the previous energy state. -/
theorem svFix_dOrZero_flag (s : Unit × ℚ × rconf_t) :
    (rSolveStep svFix dOrZero s).2.2.converged = decide (|1 - s.2.1| < 1) := by
  rw [rSolveStep_converged_eq]
  rw [svFix_fock_energy s.2.2]
  have herr : rStepErr svFix dOrZero s = 0 := rfl
  have hc : svFix.convthr = 1 := rfl
  rw [herr, hc, decide_eq_true (by norm_num : (0 : ℚ) < 1), Bool.true_and]

/-- On the fixture with the unit-error restricted accelerator, no iteration
ever sets the convergence flag. -/
theorem svFix_dOrErr_unconv (s : Unit × ℚ × rconf_t) :
    (rSolveStep svFix dOrErr s).2.2.converged = false := by
  rw [rSolveStep_converged_eq]
  have herr : rStepErr svFix dOrErr s = 1 := rfl
  have hc : svFix.convthr = 1 := rfl
  rw [herr, hc, decide_eq_false (by norm_num : ¬ ((1 : ℚ) < 1)), Bool.false_and]

/-- On the fixture with the unit-error unrestricted accelerator, no
iteration ever sets the convergence flag. -/
theorem svFix_uDOrErr_unconv (s : Unit × ℚ × uconf_t) :
    (uSolveStep svFix uDOrErr s).2.2.converged = false := by
  rw [uSolveStep_converged_eq]
  have herr : uStepErr svFix uDOrErr s = 1 := rfl
  have hc : svFix.convthr = 1 := rfl
  rw [herr, hc, decide_eq_false (by norm_num : ¬ ((1 : ℚ) < 1)), Bool.false_and]

/-- On the degenerate fixture with the zero-error accelerator, the solve
loop always leaves at the second iteration: the first iteration sees the
energy change 1 - 0 and cannot pass the threshold, the second sees 1 - 1. -/
theorem svFix_loop_two (conf : rconf_t) :
    rSolveLoop svFix dOrZero 3 ((), 0, conf)
      = (rSolveStep svFix dOrZero (rSolveStep svFix dOrZero ((), 0, conf)), 2) := by
  have h1 : (rSolveStep svFix dOrZero ((), 0, conf)).2.2.converged = false := by
    rw [svFix_dOrZero_flag]
    norm_num
  have hE1 : (rSolveStep svFix dOrZero ((), 0, conf)).2.1 = 1 := svFix_step_E dOrZero _
  have h2 : (rSolveStep svFix dOrZero
      (rSolveStep svFix dOrZero ((), 0, conf))).2.2.converged = true := by
    rw [svFix_dOrZero_flag, hE1]
    norm_num
  have hinner : rSolveLoop svFix dOrZero 2 (rSolveStep svFix dOrZero ((), 0, conf))
      = (rSolveStep svFix dOrZero (rSolveStep svFix dOrZero ((), 0, conf)), 1) := by
    show rSolveLoop svFix dOrZero (1 + 1) _ = _
    rw [rSolveLoop]
    simp [h2]
  show rSolveLoop svFix dOrZero (2 + 1) ((), 0, conf) = _
  rw [rSolveLoop]
  simp only [h1, Bool.false_eq_true, if_false]
  rw [hinner]

/-- C1 (amended): re-invoking Solve on a configuration whose FockBuild
energy is stationary at Ec (a self-consistent fixed point) with the
accelerator error below convthr at the second iteration leaves the
iteration loop within TWO iterations with the converged flag set; it cannot
in general leave within one, because the first iteration compares the new
energy against the initial reference 0.0 rather than against the stored
Econf, so its energy change is the full Econf. -/
theorem C1_resolve_fixed_point_two_iterations {Dst : Type} (sv : SCFSolver)
    (dOr : rDIISOracle Dst) (conf : rconf_t) (Ec : ℚ)
    (hmax : 2 ≤ sv.maxit) (hthr : 0 < sv.convthr)
    (hE1 : (sv.FockBuild conf).2 = Ec)
    (hE2 : (sv.FockBuild (rSolveStep sv dOr (dOr.fresh, 0, conf)).2.2).2 = Ec)
    (herr2 : rStepErr sv dOr (rSolveStep sv dOr (dOr.fresh, 0, conf)) < sv.convthr) :
    (rSolveLoop sv dOr sv.maxit (dOr.fresh, 0, conf)).2 ≤ 2 ∧
    (rSolveLoop sv dOr sv.maxit (dOr.fresh, 0, conf)).1.2.2.converged = true := by
  obtain ⟨m, hm⟩ : ∃ m, sv.maxit = m + 1 + 1 := ⟨sv.maxit - 2, by omega⟩
  have hconv2 : (rSolveStep sv dOr
      (rSolveStep sv dOr (dOr.fresh, 0, conf))).2.2.converged = true := by
    rw [rSolveStep_converged_eq, hE2]
    have hsE : (rSolveStep sv dOr (dOr.fresh, 0, conf)).2.1 = Ec := by
      rw [rSolveStep_fst_E]
      exact hE1
    rw [hsE]
    have hz : Ec - Ec = 0 := by ring
    rw [hz, abs_zero, decide_eq_true herr2, decide_eq_true hthr, Bool.and_self]
  rw [hm, rSolveLoop]
  by_cases hc1 : (rSolveStep sv dOr (dOr.fresh, 0, conf)).2.2.converged = true
  · simp [hc1]
  · have hc1f : (rSolveStep sv dOr (dOr.fresh, 0, conf)).2.2.converged = false := by
      cases h : (rSolveStep sv dOr (dOr.fresh, 0, conf)).2.2.converged
      · rfl
      · exact absurd h hc1
    simp only [hc1f, Bool.false_eq_true, if_false]
    have hinner : rSolveLoop sv dOr (m + 1) (rSolveStep sv dOr (dOr.fresh, 0, conf))
        = (rSolveStep sv dOr (rSolveStep sv dOr (dOr.fresh, 0, conf)), 1) := by
      rw [rSolveLoop]
      simp [hconv2]
    rw [hinner]
    exact ⟨by omega, hconv2⟩

/-- Witness for the amended C1 on the degenerate fixture. -/
theorem C1_resolve_fixed_point_two_iterations_witness :
    (2 ≤ svFix.maxit ∧ 0 < svFix.convthr) ∧
    ((rSolveLoop svFix dOrZero svFix.maxit (dOrZero.fresh, 0, rcFixB)).2 ≤ 2 ∧
      (rSolveLoop svFix dOrZero svFix.maxit (dOrZero.fresh, 0, rcFixB)).1.2.2.converged = true) :=
  ⟨⟨by decide, (by norm_num : (0 : ℚ) < 1)⟩,
    C1_resolve_fixed_point_two_iterations svFix dOrZero rcFixB 1 (by decide)
      (by norm_num : (0 : ℚ) < 1) (svFix_fock_energy rcFixB) (svFix_fock_energy _)
      (by norm_num : (0 : ℚ) < 1)⟩

/-- The first Solve call of the C1 counterexample (the prior call that sets
the converged flag). -/
def cexRun1 : (Unit × ℚ × rconf_t) × ℕ :=
  match rSolve svFix dOrZero rcFixB with
  | .ok r => r
  | .error _ => (((), 0, rcFixB), 0)

/-- The configuration left converged by the prior Solve call. -/
def cexConf1 : rconf_t := cexRun1.1.2.2

/-- The re-invocation of Solve on the converged configuration. -/
def cexRun2 : (Unit × ℚ × rconf_t) × ℕ :=
  match rSolve svFix dOrZero cexConf1 with
  | .ok r => r
  | .error _ => (((), 0, cexConf1), 0)

/-- Counterexample to C1 as stated: on the degenerate fixture a prior Solve
call sets the converged flag, yet re-invoking Solve executes two
iterations, not one, because the first iteration compares the recomputed
energy 1 with the initial reference 0. -/
theorem C1_counterexample_resolve_takes_two_iterations :
    cexConf1.converged = true ∧ cexRun2.2 = 2 := by
  have e1 : rSolve svFix dOrZero rcFixB
      = .ok (rSolveLoop svFix dOrZero 3 ((), 0, rcFixB)) := rfl
  have hc1 : cexConf1
      = (rSolveStep svFix dOrZero (rSolveStep svFix dOrZero ((), 0, rcFixB))).2.2 := by
    unfold cexConf1 cexRun1
    rw [e1, svFix_loop_two rcFixB]
  have hE1 : (rSolveStep svFix dOrZero ((), 0, rcFixB)).2.1 = 1 := svFix_step_E dOrZero _
  have hflag : cexConf1.converged = true := by
    rw [hc1, svFix_dOrZero_flag, hE1]
    norm_num
  refine ⟨hflag, ?_⟩
  have e3 : rSolve svFix dOrZero cexConf1
      = .ok (rSolveLoop svFix dOrZero 3 ((), 0, cexConf1)) := by
    rw [hc1]
    rfl
  unfold cexRun2
  rw [e3, svFix_loop_two]

/-- Witness for C2 on the fixture with unit accelerator error: no iteration
converges, so both loops run their full budget of two iterations and end at
the twice-iterated step state. -/
theorem C2_convergence_flag_and_nonconvergence_witness :
    ((0 : ℕ) < 2 ∧
      rSolveLoop svFix dOrErr 2 ((), 0, rcFixB)
        = ((rSolveStep svFix dOrErr)^[2] ((), 0, rcFixB), 2)) ∧
    ((0 : ℕ) < 2 ∧
      uSolveLoop svFix uDOrErr 2 ((), 0, ucFixB)
        = ((uSolveStep svFix uDOrErr)^[2] ((), 0, ucFixB), 2)) :=
  ⟨⟨by decide, C2_convergence_flag_and_nonconvergence.2.1 Unit svFix dOrErr 2 ((), 0, rcFixB)
      (by decide) fun k hk => by
        rw [Function.iterate_succ_apply']
        exact svFix_dOrErr_unconv _⟩,
    ⟨by decide, C2_convergence_flag_and_nonconvergence.2.2.2 Unit svFix uDOrErr 2 ((), 0, ucFixB)
      (by decide) fun k hk => by
        rw [Function.iterate_succ_apply']
        exact svFix_uDOrErr_unconv _⟩⟩
